import Mathlib

/-!
Verification of the retrieval engine of `rag_mcp_server.py`.

The development shallowly embeds the data model and the operations of the
RAG MCP server: the `Document` values, the vector-store search, the
maximal-marginal-relevance reranking (`maximal_marginal_relevance` from
`langchain_community.vectorstores.utils`, the exact routine the server calls),
answer generation (`generate_response_from_docs`), the composed pipeline
(`search_rag`), the MCP tool entry points (`rag_search`, `rag_status`), and the
index lifecycle (`create_rag`, `initialize_resources`).

External collaborators (the embedding model, the cosine-similarity float math,
the FAISS nearest-neighbour structure, the web loader, the chunker, and the
LLM client) are modelled as oracle functions supplied through environment
records, with similarity scores abstracted as rationals; everything layered on
top of them is translated from the source line by line.
-/

/-- An embedding vector (`List[float]` in the source, floats abstracted as `ℚ`). -/
abbrev Emb := List ℚ

/-- `langchain_core.documents.Document`: page content plus the metadata keys the
server reads (`title` and `source`; `metadata.get` returns `None`-able values,
hence `Option`). -/
structure Document where
  page_content : String
  title : Option String
  source : Option String
deriving DecidableEq, Repr, Inhabited

/-- A FAISS vector store, modelled through its search contract: `ranked e` is
the full similarity ranking of the stored documents for query vector `e`
(most similar first), as produced by the external nearest-neighbour search;
`ntotal` is `index.ntotal`, the number of stored vectors. -/
structure FAISS where
  ranked : Emb → List Document
  ntotal : Nat

/-- `vectorstore.similarity_search_with_score_by_vector(query_emb, k=fetch_k)`,
after the caller's `[doc for doc, _ in docs_and_scores]` projection: the top
`k` documents of the ranking (scores are dropped immediately by the caller and
are therefore not materialised). -/
def similarity_search_with_score_by_vector (vs : FAISS) (query_emb : Emb)
    (k : Nat) : List Document :=
  (vs.ranked query_emb).take k

/-- Python `max` over a list of scores (`max(similarity_to_selected[i])`);
the `[]` case is never reached by the caller, `0` is a harmless total default. -/
def listMax : List ℚ → ℚ
  | [] => 0
  | x :: xs => xs.foldl max x

/-- The scanning loop shared by `np.argmax` and the `for i, query_score in
enumerate(...)` selection inside `maximal_marginal_relevance`: walk the index
list in order, skip excluded indices, keep the current best and replace it only
on a strict improvement (so the earliest index attaining the maximum wins). -/
def bestCandidateAux (score : Nat → ℚ) (excluded : List Nat) :
    List Nat → Option Nat → Option Nat
  | [], acc => acc
  | i :: rest, acc =>
    if i ∈ excluded then bestCandidateAux score excluded rest acc
    else
      match acc with
      | none => bestCandidateAux score excluded rest (some i)
      | some b =>
        if score b < score i then bestCandidateAux score excluded rest (some i)
        else bestCandidateAux score excluded rest (some b)

/-- First index `i < n` outside `excluded` maximising `score` (ties resolved to
the smallest index), i.e. Python's running `best_score` / `idx_to_add` scan
with `-np.inf` as the initial best (modelled by the `none` accumulator). -/
def bestCandidate (score : Nat → ℚ) (excluded : List Nat) (n : Nat) :
    Option Nat :=
  bestCandidateAux score excluded (List.range n) none

/-- One iteration of the `while` loop of `maximal_marginal_relevance`: the MMR
equation score `lambda_mult * query_score - (1 - lambda_mult) * redundant_score`
for each non-selected candidate, keeping the best. -/
def mmrStep (lambda_mult : ℚ) (simQ : Nat → ℚ) (simDD : Nat → Nat → ℚ)
    (n : Nat) (idxs : List Nat) : Option Nat :=
  bestCandidate
    (fun i => lambda_mult * simQ i - (1 - lambda_mult) * listMax (idxs.map (simDD i)))
    idxs n

/-- The `while len(idxs) < min(k, len(embedding_list))` loop, fuelled by the
number of remaining iterations (each iteration appends exactly one index).
The `none` branch — Python's `idx_to_add = -1` surviving the scan — is
unreachable while fewer than `n` indices are selected. -/
def mmrLoop (lambda_mult : ℚ) (simQ : Nat → ℚ) (simDD : Nat → Nat → ℚ)
    (n : Nat) : Nat → List Nat → List Nat
  | 0, idxs => idxs
  | fuel + 1, idxs =>
    match mmrStep lambda_mult simQ simDD n idxs with
    | none => idxs
    | some i => mmrLoop lambda_mult simQ simDD n fuel (idxs ++ [i])

/-- `langchain_community.vectorstores.utils.maximal_marginal_relevance`, the
function invoked at `rag_mcp_server.py:101`: return `[]` when
`min(k, len(embedding_list)) <= 0`; otherwise seed the selection with
`np.argmax(similarity_to_query)` and run the greedy MMR loop.  `sim` stands for
the external `cosine_similarity` kernel; `similarity_to_query` and
`similarity_to_selected` are its instantiations below. -/
def maximal_marginal_relevance (sim : Emb → Emb → ℚ) (query_embedding : Emb)
    (embedding_list : List Emb) (lambda_mult : ℚ) (k : Nat) : List Nat :=
  let n := embedding_list.length
  let simQ : Nat → ℚ := fun i => sim query_embedding (embedding_list.getD i [])
  let simDD : Nat → Nat → ℚ := fun i j =>
    sim (embedding_list.getD i []) (embedding_list.getD j [])
  if min k n = 0 then []
  else
    match bestCandidate simQ [] n with
    | none => []
    | some most_similar =>
      mmrLoop lambda_mult simQ simDD n (min k n - 1) [most_similar]

/-- The embedding side of the environment: `embed_query` is
`HuggingFaceEmbeddings.embed_query`, `sim` the cosine-similarity kernel used by
`maximal_marginal_relevance`; both are external, deterministic collaborators. -/
structure EmbEnv where
  embed_query : String → Emb
  sim : Emb → Emb → ℚ

/-- `get_relevant_documents` (`rag_mcp_server.py:80-106`): embed the query,
fetch the top `fetch_k` candidates from the vector store, and when more than
`num_documents` candidates came back rerank them with MMR over re-embedded page
contents.  The `except AttributeError` fallback to plain text search models a
library-compatibility path that the modelled FAISS interface (which always
provides `similarity_search_with_score_by_vector`) never takes. -/
def get_relevant_documents (env : EmbEnv) (query : String) (vectorstore : FAISS)
    (num_documents : Nat) (fetch_k : Nat) (lambda_mult : ℚ) : List Document :=
  let query_emb := env.embed_query query
  let docs := similarity_search_with_score_by_vector vectorstore query_emb fetch_k
  if num_documents < docs.length then
    let doc_embs := docs.map (fun d => env.embed_query d.page_content)
    let idxs := maximal_marginal_relevance env.sim query_emb doc_embs lambda_mult
      num_documents
    idxs.map (fun i => docs.getD i default)
  else docs

/-- `llm_utils.LLMType`: the only supported value is `OLLAMA`. -/
inductive LLMType
  | ollama
deriving DecidableEq, Repr

/-- Chat messages (`SystemMessage` / `HumanMessage`). -/
inductive Message
  | system (content : String)
  | human (content : String)
deriving DecidableEq, Repr

/-- The behaviour of a constructed chat model: `await llm.ainvoke(messages)`
either returns a response content string or raises (`.error` carries the
rendered exception text used by the `except` handler). -/
abbrev GenModel := List Message → Except String String

/-- `llm_utils.create_llm`: for `LLMType.OLLAMA` return the constructed
`ChatOllama` client (an external collaborator, injected as `ollama_client`);
the `return None` fallback is reachable only for unsupported LLM types, of
which the enumeration has none. -/
def create_llm (llm_type : LLMType) (ollama_client : GenModel) : Option GenModel :=
  match llm_type with
  | .ollama => some ollama_client

/-- `RAG_SYSTEM_PROMPT` (`rag_mcp_server.py:33-38`). -/
def RAG_SYSTEM_PROMPT : String :=
  "あなたは、与えられたコンテキストにもとづき正確な情報を提供する有能なアシスタントです。" ++
  "ユーザーの質問には必ずそのコンテキスト内の情報だけを使って回答してください。" ++
  "十分な情報が含まれていない場合は、その旨をはっきり伝えてください。" ++
  "回答は簡潔かつ事実ベースで、必要に応じてコンテキストの該当部分を引用してください。"

/-- The context string assembled by `generate_response_from_docs`:
`"\n\n".join(f"Document {i+1}:\n{doc.page_content}" for i, doc in enumerate(documents))`. -/
def rag_context (documents : List Document) : String :=
  String.intercalate "\n\n"
    (documents.enum.map (fun p => "Document " ++ toString (p.1 + 1) ++ ":\n" ++ p.2.page_content))

/-- The message list passed to `llm.ainvoke`. -/
def rag_messages (system_prompt : String) (query : String)
    (documents : List Document) : List Message :=
  [.system system_prompt,
   .human ("CONTEXT:\n" ++ rag_context documents ++ "\n\nQUESTION:\n" ++ query)]

/-- `generate_response_from_docs` (`rag_mcp_server.py:109-133`): if no LLM is
available return the raw concatenated page contents; otherwise invoke the
model and, should it raise, return the rendered error string instead of
propagating (`except Exception` — the function returns on every path). -/
def generate_response_from_docs (ollama_client : GenModel) (query : String)
    (documents : List Document) (llm_type : LLMType)
    (system_prompt : String) : String :=
  match create_llm llm_type ollama_client with
  | none => String.intercalate "\n\n" (documents.map (·.page_content))
  | some llm =>
    match llm (rag_messages system_prompt query documents) with
    | .ok content => content
    | .error e => "応答生成エラー: " ++ e

/-- `search_rag`'s Python return type `Union[str, Tuple[str, List[Document]]]`. -/
inductive SearchResult
  | text (s : String)
  | withDocs (s : String) (docs : List Document)
deriving DecidableEq, Repr

/-- `search_rag` (`rag_mcp_server.py:136-159`): retrieve, short-circuit with the
fixed no-information answer when nothing was retrieved, otherwise generate. -/
def search_rag (env : EmbEnv) (ollama_client : GenModel) (query : String)
    (vectorstore : FAISS) (llm_type : LLMType) (num_documents : Nat)
    (fetch_k : Nat) (lambda_mult : ℚ)
    (return_source_documents : Bool) : SearchResult :=
  let docs := get_relevant_documents env query vectorstore num_documents fetch_k
    lambda_mult
  if docs.isEmpty then
    let msg := "該当する情報が見つかりませんでした。"
    if return_source_documents then .withDocs msg [] else .text msg
  else
    let response := generate_response_from_docs ollama_client query docs llm_type
      RAG_SYSTEM_PROMPT
    if return_source_documents then .withDocs response docs else .text response

/-- The module-level mutable state of the server: the global `vectorstore`
(`Optional[FAISS]`, initially `None`) and the `_is_initialized` flag
(initially `False`). -/
structure ServerState where
  vectorstore : Option FAISS
  initDone : Bool

/-- One `- {title} ({source})` line of the sources block, with the
`metadata.get` defaults. -/
def sourceLine (d : Document) : String :=
  "- " ++ d.title.getD "無題" ++ " (" ++ d.source.getD "URL不明" ++ ")"

/-- Errors a tool body could raise.  `valueError` and `runtimeError` mirror the
two `raise` statements of `create_rag`; the MCP tool bodies themselves never
raise, so their embeddings only ever build `.ok` results. -/
inductive RagError
  | valueError (msg : String)
  | runtimeError (msg : String)
deriving DecidableEq, Repr

/-- The `rag_search` MCP tool (`rag_mcp_server.py:186-207`).  Every Python
`return` is an `.ok`; a `raise` would be an `.error`, and no branch raises.
`py_str` models Python's `str(answer)` applied to a tuple, the dead final
fallback that is reachable only if `search_rag` returned a tuple although
`return_sources` was false (it never does). -/
def rag_search (env : EmbEnv) (ollama_client : GenModel)
    (py_str : String → List Document → String) (st : ServerState)
    (query : String) (num_documents : Nat)
    (return_sources : Bool) : Except RagError String :=
  match st.initDone, st.vectorstore with
  | true, some vs =>
    let answer := search_rag env ollama_client query vs .ollama num_documents 20
      (7/10) return_sources
    match answer with
    | .withDocs resp docs =>
      if return_sources then
        let srcs := String.intercalate "\n" (docs.map sourceLine)
        .ok (resp ++ "\n\n参考文献\n" ++ srcs)
      else .ok (py_str resp docs)
    | .text s => .ok s
  | _, _ => .ok "RAG system not initialized. Please restart the server."

/-- The `rag_status` MCP tool (`rag_mcp_server.py:209-213`): report
`index.ntotal` of the global vector store, `0` when it is `None`; the body
cannot raise. -/
def rag_status (st : ServerState) : Except RagError String :=
  let total := match st.vectorstore with
    | some vs => vs.ntotal
    | none => 0
  .ok ("RAG ready. chunks=" ++ toString total)

/-- `URLS` (`rag_mcp_server.py:27-31`). -/
def URLS : List String :=
  ["https://ja.wikipedia.org/wiki/もののけ姫",
   "https://ja.wikipedia.org/wiki/千と千尋の神隠し",
   "https://ja.wikipedia.org/wiki/風の谷のナウシカ"]

/-- The external collaborators consumed by `create_rag`: presence of the
persisted blob `(INDEX_DIR / "index.faiss").exists()`, the store restored by
`FAISS.load_local`, the per-URL `WebBaseLoader(u).load()`, the
`CharacterTextSplitter` chunker and `FAISS.from_documents`. -/
structure InitEnv where
  index_exists : Bool
  load_local : FAISS
  web_load : String → List Document
  split_documents : List Document → List Document
  from_documents : List Document → FAISS

/-- Which externally visible side effects a `create_rag` run performed:
whether the Corpus Loader (`WebBaseLoader`) was invoked at all, and whether
`vs.save_local(INDEX_DIR)` persisted a new index. -/
structure InitEffects where
  loader_called : Bool
  saved : Bool
deriving DecidableEq, Repr

/-- `create_rag` (`rag_mcp_server.py:49-78`): `urls = links or URLS`; raise
`ValueError` on an empty URL list (dead, since `URLS` is non-empty); load and
return the persisted index when the blob exists; otherwise fetch every URL,
raise `RuntimeError("Failed to load documents")` when nothing was loaded, and
else chunk, build, persist and return a fresh index.  The second component
records the effects performed by the run. -/
def create_rag (links : Option (List String)) (env : InitEnv) :
    Except RagError FAISS × InitEffects :=
  let urls := match links with
    | some l => if l.isEmpty then URLS else l
    | none => URLS
  if urls.isEmpty then
    (.error (.valueError "URLが指定されていません。"), ⟨false, false⟩)
  else if env.index_exists then
    (.ok env.load_local, ⟨false, false⟩)
  else
    let docs := (urls.map env.web_load).flatten
    if docs.isEmpty then
      (.error (.runtimeError "Failed to load documents"), ⟨true, false⟩)
    else
      let chunks := env.split_documents docs
      let vs := env.from_documents chunks
      (.ok vs, ⟨true, true⟩)

/-- The strict-then-stable comparison underlying a "plain top-k similarity
ranking": candidate `i` precedes candidate `j` when it is strictly more
similar to the query, or equally similar and not later in the original
candidate order. -/
def simRank (simQ : Nat → ℚ) (i j : Nat) : Prop :=
  simQ j < simQ i ∨ (simQ i = simQ j ∧ i ≤ j)

instance (simQ : Nat → ℚ) : DecidableRel (simRank simQ) := fun i j => by
  unfold simRank; infer_instance

/-- The similarity-to-query of candidate `i`, exactly as the MMR stage
computes it: the external similarity of the query embedding and the
re-embedded page content of the `i`-th of the `fetch_k` candidates. -/
def candidateSim (env : EmbEnv) (query : String) (vectorstore : FAISS)
    (fetch_k : Nat) (i : Nat) : ℚ :=
  let query_emb := env.embed_query query
  let docs := similarity_search_with_score_by_vector vectorstore query_emb fetch_k
  env.sim query_emb ((docs.map (fun d => env.embed_query d.page_content)).getD i [])

/-- The C3 claim's comparison point, written from the spec's words: the plain
top-`k` similarity ranking of the same `fetch_k` candidates — the candidates
sorted by similarity to the query (descending, ties kept in candidate order)
with the first `k` taken, the similarity being the one the retrieval stage
computes (`candidateSim`). -/
def specPlainTopK (env : EmbEnv) (query : String) (vectorstore : FAISS)
    (k : Nat) (fetch_k : Nat) : List Document :=
  let docs := similarity_search_with_score_by_vector vectorstore
    (env.embed_query query) fetch_k
  ((List.insertionSort (simRank (candidateSim env query vectorstore fetch_k))
      (List.range docs.length)).take k).map (fun i => docs.getD i default)

/-! Concrete fixtures used by witnesses and counterexamples. -/

/-- An empty FAISS store. -/
def faissEmptyW : FAISS := ⟨fun _ => [], 0⟩

/-- Two distinct documents (chunks) carrying the same title/URL metadata, as
two chunks of one web page do. -/
def docAW : Document := ⟨"contentA", some "T", some "U"⟩

/-- Second chunk of the same page as `docAW`. -/
def docBW : Document := ⟨"contentB", some "T", some "U"⟩

/-- A store holding the two same-page chunks. -/
def faissDupW : FAISS := ⟨fun _ => [docAW, docBW], 2⟩

/-- A third, metadata-free document. -/
def docCW : Document := ⟨"contentC", none, none⟩

/-- A store holding three distinct documents. -/
def faiss3W : FAISS := ⟨fun _ => [docAW, docBW, docCW], 3⟩

/-- A trivial embedding environment. -/
def envEmbW : EmbEnv := ⟨fun _ => [], fun _ _ => 0⟩

/-- A generation model that always answers `"ANS"`. -/
def genOkW : GenModel := fun _ => .ok "ANS"

/-- A generation model that always raises. -/
def genFailW : GenModel := fun _ => .error "boom"

/-- A stand-in for Python's `str` on the dead tuple branch. -/
def pyStrW : String → List Document → String := fun _ _ => ""

/-- Lifecycle environment: no persisted blob and a loader that yields nothing. -/
def initEnvFailW : InitEnv := ⟨false, faissEmptyW, fun _ => [], fun ds => ds, fun _ => faissEmptyW⟩

/-- Lifecycle environment: the persisted blob exists. -/
def initEnvLoadW : InitEnv := ⟨true, faissEmptyW, fun _ => [], fun ds => ds, fun _ => faissEmptyW⟩

/-- Initialized server state over the duplicate-metadata store. -/
def stReadyW : ServerState := ⟨some faissDupW, true⟩

/-- The outcome of one `initialize_resources` call: the module state
afterwards, whether the call executed `create_rag` at all (as opposed to
returning early on `_is_initialized`), the effects of that execution, and the
exception propagated to the caller, if any. -/
structure InitResult where
  state : ServerState
  ran_create : Bool
  effects : InitEffects
  err : Option RagError

/-- `initialize_resources` (`rag_mcp_server.py:166-175`), one sequential call
(the `asyncio.Lock` serialises concurrent callers, so the step relation is the
sequential one): return at once when `_is_initialized` is set; otherwise run
`create_rag()` — on success store the result and set the flag, on an exception
leave both untouched and propagate the error. -/
def initResources (env : InitEnv) (st : ServerState) : InitResult :=
  if st.initDone then ⟨st, false, ⟨false, false⟩, none⟩
  else
    match create_rag none env with
    | (.ok vs, eff) => ⟨⟨some vs, true⟩, true, eff, none⟩
    | (.error e, eff) => ⟨st, true, eff, some e⟩

/-! ## Shared helper lemmas -/

/-- The URL list computed by `create_rag` (`links or URLS`) is never empty,
since `URLS` itself is non-empty: the `ValueError` branch is dead. -/
theorem create_rag_urls_not_empty (links : Option (List String)) :
    (match links with
      | some l => if l.isEmpty then URLS else l
      | none => URLS).isEmpty = false := by
  match links with
  | none => rfl
  | some l =>
    show (if l.isEmpty then URLS else l).isEmpty = false
    cases hl : l.isEmpty with
    | true => rfl
    | false => exact hl

/-- A loader that yields nothing for every URL yields nothing overall. -/
theorem flatten_web_load_nil (env : InitEnv) (hload : ∀ u, env.web_load u = [])
    (L : List String) : (L.map env.web_load).flatten = [] := by
  induction L with
  | nil => rfl
  | cons a t ih => simp [hload, ih]

/-! ## Claim theorems -/

/-- C1 — counterexample.  The claim states that after a failed initialization
attempt no later call re-runs `create_rag`.  In the code, a failed attempt
leaves `_is_initialized` unset, so the very next `initialize_resources` call
runs `create_rag` again: starting from the fresh state, a first attempt in an
environment with no persisted index and an empty corpus runs `create_rag` and
fails, and the second call runs `create_rag` once more. -/
theorem c1_counterexample :
    (initResources initEnvFailW ⟨none, false⟩).ran_create = true ∧
    (initResources initEnvFailW ⟨none, false⟩).err.isSome = true ∧
    (initResources initEnvFailW
      (initResources initEnvFailW ⟨none, false⟩).state).ran_create = true :=
  ⟨rfl, rfl, rfl⟩

/-- C1 — amended.  Later `initialize_resources` calls skip `create_rag` only
after an attempt that completed **successfully**; after a failed attempt the
state (flag and store) is unchanged and the next call re-runs `create_rag`
(initialization is retried, not fail-fast). -/
theorem c1_amended (env1 env2 : InitEnv) (st : ServerState) :
    ((initResources env1 st).err = none →
      (initResources env2 (initResources env1 st).state).ran_create = false) ∧
    (∀ e, (initResources env1 st).err = some e →
      (initResources env1 st).state = st ∧
      (initResources env2 (initResources env1 st).state).ran_create = true) := by
  by_cases h : st.initDone
  · refine ⟨fun _ => ?_, fun e he => ?_⟩
    · simp [initResources, h]
    · simp [initResources, h] at he
  · cases hc : create_rag none env1 with
    | mk res eff =>
      cases res with
      | ok vs =>
        refine ⟨fun _ => ?_, fun e he => ?_⟩
        · simp [initResources, h, hc]
        · simp [initResources, h, hc] at he
      | error er =>
        refine ⟨fun hnone => ?_, fun e he => ?_⟩
        · simp [initResources, h, hc] at hnone
        · refine ⟨by simp [initResources, h, hc], ?_⟩
          have hstate : (initResources env1 st).state = st := by
            simp [initResources, h, hc]
          rw [hstate]
          cases hc2 : create_rag none env2 with
          | mk res2 eff2 =>
            cases res2 with
            | ok vs2 => simp [initResources, h, hc2]
            | error e2 => simp [initResources, h, hc2]

/-- C1 — witness for the amended theorem: after a successful load-from-blob
attempt the second call does not run `create_rag`; after the failed
empty-corpus attempt the second call does. -/
theorem c1_witness :
    (initResources initEnvLoadW
      (initResources initEnvLoadW ⟨none, false⟩).state).ran_create = false ∧
    (initResources initEnvFailW
      (initResources initEnvFailW ⟨none, false⟩).state).ran_create = true :=
  ⟨(c1_amended initEnvLoadW initEnvLoadW ⟨none, false⟩).1 rfl,
   ((c1_amended initEnvFailW initEnvFailW ⟨none, false⟩).2
      (.runtimeError "Failed to load documents") rfl).2⟩

/-- C4 — confirmed.  When the persisted index blob exists, `create_rag`
restores and returns it without invoking the Corpus Loader and without
persisting anything; and unconditionally, whether the loader is invoked is
decided solely by the presence of the blob (the only other guard, the empty
URL list, is dead because `URLS` is non-empty). -/
theorem c4_load_skips_loader (links : Option (List String)) (env : InitEnv) :
    (env.index_exists = true →
      create_rag links env = (.ok env.load_local, ⟨false, false⟩)) ∧
    (create_rag links env).2.loader_called = !env.index_exists := by
  have hurls := create_rag_urls_not_empty links
  cases hex : env.index_exists with
  | true =>
    constructor
    · intro _
      simp only [create_rag]
      rw [hurls]
      simp [hex]
    · simp only [create_rag]
      rw [hurls]
      simp [hex]
  | false =>
    constructor
    · intro h
      simp [hex] at h
    · simp only [create_rag]
      rw [hurls]
      simp only [hex, Bool.false_eq_true, if_false]
      cases hdocs : ((match links with
          | some l => if l.isEmpty then URLS else l
          | none => URLS).map env.web_load).flatten.isEmpty <;>
        simp [hdocs]

/-- C4 — witness: with the blob present, `create_rag` returns the loaded
store, calling neither the loader nor the persister. -/
theorem c4_witness :
    create_rag none initEnvLoadW = (.ok initEnvLoadW.load_local, ⟨false, false⟩) :=
  (c4_load_skips_loader none initEnvLoadW).1 rfl

/-- C5 — confirmed.  With no persisted blob and a Corpus Loader yielding no
documents, `create_rag` fails with the empty-corpus error (the
`RuntimeError("Failed to load documents")` raise, the error kind reserved for
the empty corpus), persists nothing, and an `initialize_resources` attempt in
that environment propagates the error while leaving the state unready with no
store. -/
theorem c5_empty_corpus (links : Option (List String)) (env : InitEnv)
    (hex : env.index_exists = false) (hload : ∀ u, env.web_load u = []) :
    create_rag links env =
      (.error (.runtimeError "Failed to load documents"), ⟨true, false⟩) ∧
    (initResources env ⟨none, false⟩).state.initDone = false ∧
    (initResources env ⟨none, false⟩).state.vectorstore = none ∧
    (initResources env ⟨none, false⟩).err =
      some (.runtimeError "Failed to load documents") := by
  have hcr : ∀ lk : Option (List String), create_rag lk env =
      (.error (.runtimeError "Failed to load documents"), ⟨true, false⟩) := by
    intro lk
    simp only [create_rag]
    rw [create_rag_urls_not_empty lk]
    simp only [hex, Bool.false_eq_true, if_false]
    rw [flatten_web_load_nil env hload]
    rfl
  refine ⟨hcr links, ?_, ?_, ?_⟩ <;> simp [initResources, hcr none]

/-- C5 — witness: the concrete no-blob, empty-loader environment. -/
theorem c5_witness :
    create_rag none initEnvFailW =
      (.error (.runtimeError "Failed to load documents"), ⟨true, false⟩) ∧
    (initResources initEnvFailW ⟨none, false⟩).state.initDone = false ∧
    (initResources initEnvFailW ⟨none, false⟩).state.vectorstore = none ∧
    (initResources initEnvFailW ⟨none, false⟩).err =
      some (.runtimeError "Failed to load documents") :=
  c5_empty_corpus none initEnvFailW rfl (fun _ => rfl)

/-- C6 — counterexample.  The claim states that in a non-ready state the
retrieval tool fails with a `NotReadyError` distinguishable from a successful
answer.  In the code, `rag_search` on the fresh uninitialized state performs a
normal successful return whose value is the plain string
`"RAG system not initialized. Please restart the server."` — the same channel
and type as any answer; nothing is raised. -/
theorem c6_counterexample :
    rag_search envEmbW genOkW pyStrW ⟨none, false⟩ "q" 5 false =
      .ok "RAG system not initialized. Please restart the server." ∧
    (rag_search envEmbW genOkW pyStrW ⟨none, false⟩ "q" 5 false).isOk = true :=
  ⟨rfl, rfl⟩

/-- C6 — amended.  When the server is not initialized or the store is absent,
`rag_search` returns — as an ordinary successful string value, in-band with
answers — the fixed sentinel message, without performing any retrieval. -/
theorem c6_amended (env : EmbEnv) (g : GenModel)
    (py : String → List Document → String) (st : ServerState) (q : String)
    (k : Nat) (rs : Bool) (h : st.initDone = false ∨ st.vectorstore = none) :
    rag_search env g py st q k rs =
      .ok "RAG system not initialized. Please restart the server." := by
  obtain ⟨vsOpt, d⟩ := st
  cases d with
  | false => rfl
  | true =>
    cases vsOpt with
    | none => rfl
    | some vs => rcases h with h | h <;> simp at h

/-- C6 — witness for the amended theorem. -/
theorem c6_witness :
    rag_search envEmbW genOkW pyStrW ⟨some faissEmptyW, false⟩ "q" 3 true =
      .ok "RAG system not initialized. Please restart the server." :=
  c6_amended envEmbW genOkW pyStrW ⟨some faissEmptyW, false⟩ "q" 3 true
    (Or.inl rfl)

/-- C7 — confirmed.  When retrieval yields no documents, `search_rag` returns
the fixed no-information answer (with an empty source list when sources were
requested) and its result does not depend on the generation model at all: the
generation step is never invoked, available or not. -/
theorem c7_empty_retrieval (env : EmbEnv) (g : GenModel) (q : String)
    (vs : FAISS) (t : LLMType) (k fk : Nat) (lam : ℚ) (rs : Bool)
    (hempty : get_relevant_documents env q vs k fk lam = []) :
    search_rag env g q vs t k fk lam rs =
      (if rs then .withDocs "該当する情報が見つかりませんでした。" []
       else .text "該当する情報が見つかりませんでした。") ∧
    ∀ g' : GenModel,
      search_rag env g' q vs t k fk lam rs = search_rag env g q vs t k fk lam rs := by
  constructor
  · unfold search_rag
    rw [hempty]
    rfl
  · intro g'
    unfold search_rag
    rw [hempty]
    rfl

/-- C7 — witness: the empty store retrieves nothing, and both an always-ok and
an always-raising generator produce the same fixed answer. -/
theorem c7_witness :
    search_rag envEmbW genFailW "q" faissEmptyW .ollama 5 20 (7/10) true =
      .withDocs "該当する情報が見つかりませんでした。" [] ∧
    search_rag envEmbW genOkW "q" faissEmptyW .ollama 5 20 (7/10) true =
      search_rag envEmbW genFailW "q" faissEmptyW .ollama 5 20 (7/10) true :=
  ⟨(c7_empty_retrieval envEmbW genFailW "q" faissEmptyW .ollama 5 20 (7/10) true rfl).1,
   (c7_empty_retrieval envEmbW genFailW "q" faissEmptyW .ollama 5 20 (7/10) true rfl).2 genOkW⟩

/-- C8 — confirmed.  For a non-empty document list, if the generation step
raises, `generate_response_from_docs` returns the explicit (non-empty) error
string rather than propagating the failure — the function returns on every
path of its `except Exception` structure; and the generator is never absent:
`create_llm` produces a client for every member of the `LLMType` enumeration,
so the unavailable case cannot arise. -/
theorem c8_degraded_generation (g : GenModel) (q : String)
    (docs : List Document) (t : LLMType) (sp : String) (e : String)
    (hne : docs ≠ []) (herr : g (rag_messages sp q docs) = .error e) :
    generate_response_from_docs g q docs t sp = "応答生成エラー: " ++ e ∧
    generate_response_from_docs g q docs t sp ≠ "" ∧
    (create_llm t g).isSome = true := by
  cases t with
  | ollama =>
    have hred : generate_response_from_docs g q docs .ollama sp =
        (match g (rag_messages sp q docs) with
         | .ok content => content
         | .error err => "応答生成エラー: " ++ err) := rfl
    have hval : generate_response_from_docs g q docs .ollama sp =
        "応答生成エラー: " ++ e := by
      rw [hred, herr]
    refine ⟨hval, ?_, rfl⟩
    rw [hval]
    intro hempty
    have hlen := congrArg String.length hempty
    rw [String.length_append] at hlen
    have : (9 : Nat) + e.length = 0 := hlen
    omega

/-- C8 — witness: a singleton document list and an always-raising generator. -/
theorem c8_witness :
    generate_response_from_docs genFailW "q" [⟨"c", none, none⟩] .ollama
        RAG_SYSTEM_PROMPT = "応答生成エラー: " ++ "boom" ∧
    generate_response_from_docs genFailW "q" [⟨"c", none, none⟩] .ollama
        RAG_SYSTEM_PROMPT ≠ "" ∧
    (create_llm .ollama genFailW).isSome = true :=
  c8_degraded_generation genFailW "q" [⟨"c", none, none⟩] .ollama
    RAG_SYSTEM_PROMPT "boom" (by simp) rfl

/-- C9 — counterexample.  The claim states the appended source list is
deduplicated, each distinct (title, URL) pair appearing exactly once.  With a
ready store holding two chunks of the same page (same title `T` and URL `U`),
`rag_search` appends the `- T (U)` line twice — once per retrieved document. -/
theorem c9_counterexample :
    rag_search envEmbW genOkW pyStrW stReadyW "q" 5 true =
      .ok "ANS\n\n参考文献\n- T (U)\n- T (U)" ∧
    ((get_relevant_documents envEmbW "q" faissDupW 5 20 (7/10)).map
      sourceLine).count "- T (U)" = 2 :=
  ⟨rfl, by decide⟩

/-- C9 — amended.  With sources requested and a non-empty retrieval, the
answer is followed by an **ordered but not deduplicated** source list: one
title/URL line per retrieved document, in retrieval order, so a (title, URL)
pair appears once per document carrying it. -/
theorem c9_amended (env : EmbEnv) (g : GenModel)
    (py : String → List Document → String) (vs : FAISS) (q : String) (k : Nat)
    (hne : get_relevant_documents env q vs k 20 (7/10) ≠ []) :
    rag_search env g py ⟨some vs, true⟩ q k true =
      .ok (generate_response_from_docs g q
            (get_relevant_documents env q vs k 20 (7/10)) .ollama
            RAG_SYSTEM_PROMPT
          ++ "\n\n参考文献\n"
          ++ String.intercalate "\n"
            ((get_relevant_documents env q vs k 20 (7/10)).map sourceLine)) := by
  have hfalse : (get_relevant_documents env q vs k 20 (7/10)).isEmpty = false := by
    cases h : (get_relevant_documents env q vs k 20 (7/10)).isEmpty with
    | false => rfl
    | true => exact absurd (List.isEmpty_iff.mp h) hne
  simp only [rag_search, search_rag]
  rw [hfalse]
  rfl

/-- C9 — witness for the amended theorem, on the duplicate-metadata store. -/
theorem c9_witness :
    rag_search envEmbW genOkW pyStrW ⟨some faissDupW, true⟩ "q" 5 true =
      .ok (generate_response_from_docs genOkW "q"
            (get_relevant_documents envEmbW "q" faissDupW 5 20 (7/10)) .ollama
            RAG_SYSTEM_PROMPT
          ++ "\n\n参考文献\n"
          ++ String.intercalate "\n"
            ((get_relevant_documents envEmbW "q" faissDupW 5 20 (7/10)).map
              sourceLine)) :=
  c9_amended envEmbW genOkW pyStrW faissDupW "q" 5 (by decide)

/-- C10 — confirmed.  `rag_status` returns on every path (it can only build
`.ok` values), and when the global vector store is absent it reports
`"RAG ready. chunks=0"` — "ready" with zero chunks even though nothing was
initialized. -/
theorem c10_status (st : ServerState) :
    (rag_status st).isOk = true ∧
    (st.vectorstore = none → rag_status st = .ok "RAG ready. chunks=0") := by
  obtain ⟨vsOpt, d⟩ := st
  cases vsOpt with
  | none =>
    refine ⟨rfl, fun _ => ?_⟩
    show Except.ok ("RAG ready. chunks=" ++ toString (0 : Nat)) =
      Except.ok "RAG ready. chunks=0"
    rw [show toString (0 : Nat) = "0" by decide]
    rfl
  | some vs => exact ⟨rfl, fun h => by simp at h⟩

/-- C10 — witness: the fresh uninitialized state. -/
theorem c10_witness : rag_status ⟨none, false⟩ = .ok "RAG ready. chunks=0" :=
  (c10_status ⟨none, false⟩).2 rfl



/-! ## Lemmas on the candidate scan (`bestCandidateAux` / `bestCandidate`) -/

/-- Unfolding: an excluded head is skipped. -/
theorem bestCandidateAux_cons_ex (score : Nat → ℚ) (ex : List Nat) {a : Nat}
    (t : List Nat) (acc : Option Nat) (ha : a ∈ ex) :
    bestCandidateAux score ex (a :: t) acc = bestCandidateAux score ex t acc := by
  simp only [bestCandidateAux, if_pos ha]

/-- Unfolding: an eligible head fills an empty accumulator. -/
theorem bestCandidateAux_cons_none (score : Nat → ℚ) (ex : List Nat) {a : Nat}
    (t : List Nat) (ha : a ∉ ex) :
    bestCandidateAux score ex (a :: t) none = bestCandidateAux score ex t (some a) := by
  simp only [bestCandidateAux, if_neg ha]

/-- Unfolding: an eligible head strictly better than the accumulator replaces it. -/
theorem bestCandidateAux_cons_lt (score : Nat → ℚ) (ex : List Nat) {a b : Nat}
    (t : List Nat) (ha : a ∉ ex) (hs : score b < score a) :
    bestCandidateAux score ex (a :: t) (some b) =
      bestCandidateAux score ex t (some a) := by
  simp only [bestCandidateAux, if_neg ha, if_pos hs]

/-- Unfolding: an eligible head not strictly better keeps the accumulator. -/
theorem bestCandidateAux_cons_ge (score : Nat → ℚ) (ex : List Nat) {a b : Nat}
    (t : List Nat) (ha : a ∉ ex) (hs : ¬score b < score a) :
    bestCandidateAux score ex (a :: t) (some b) =
      bestCandidateAux score ex t (some b) := by
  simp only [bestCandidateAux, if_neg ha, if_neg hs]

/-- A returned index comes from the scanned list or was the accumulator. -/
theorem bestCandidateAux_mem (score : Nat → ℚ) (ex : List Nat) :
    ∀ (l : List Nat) (acc : Option Nat) (i : Nat),
      bestCandidateAux score ex l acc = some i → i ∈ l ∨ acc = some i := by
  intro l
  induction l with
  | nil => intro acc i h; exact Or.inr h
  | cons a t ih =>
    intro acc i h
    by_cases ha : a ∈ ex
    · rw [bestCandidateAux_cons_ex score ex t acc ha] at h
      rcases ih acc i h with hm | hm
      · exact Or.inl (List.mem_cons_of_mem a hm)
      · exact Or.inr hm
    · cases acc with
      | none =>
        rw [bestCandidateAux_cons_none score ex t ha] at h
        rcases ih (some a) i h with hm | hm
        · exact Or.inl (List.mem_cons_of_mem a hm)
        · have : a = i := Option.some_inj.mp hm
          exact Or.inl (this ▸ List.mem_cons_self a t)
      | some b =>
        by_cases hs : score b < score a
        · rw [bestCandidateAux_cons_lt score ex t ha hs] at h
          rcases ih (some a) i h with hm | hm
          · exact Or.inl (List.mem_cons_of_mem a hm)
          · have : a = i := Option.some_inj.mp hm
            exact Or.inl (this ▸ List.mem_cons_self a t)
        · rw [bestCandidateAux_cons_ge score ex t ha hs] at h
          rcases ih (some b) i h with hm | hm
          · exact Or.inl (List.mem_cons_of_mem a hm)
          · exact Or.inr hm

/-- Once the accumulator is set the scan cannot return `none`. -/
theorem bestCandidateAux_isSome_of_acc (score : Nat → ℚ) (ex : List Nat) :
    ∀ (l : List Nat) (b : Nat),
      (bestCandidateAux score ex l (some b)).isSome = true := by
  intro l
  induction l with
  | nil => intro b; rfl
  | cons a t ih =>
    intro b
    by_cases ha : a ∈ ex
    · rw [bestCandidateAux_cons_ex score ex t (some b) ha]; exact ih b
    · by_cases hs : score b < score a
      · rw [bestCandidateAux_cons_lt score ex t ha hs]; exact ih a
      · rw [bestCandidateAux_cons_ge score ex t ha hs]; exact ih b

/-- An eligible element in the scanned list forces a result. -/
theorem bestCandidateAux_isSome (score : Nat → ℚ) (ex : List Nat) :
    ∀ (l : List Nat) (acc : Option Nat) (j : Nat), j ∈ l → j ∉ ex →
      (bestCandidateAux score ex l acc).isSome = true := by
  intro l
  induction l with
  | nil => intro acc j hj; exact absurd hj (List.not_mem_nil j)
  | cons a t ih =>
    intro acc j hj hjex
    rcases List.mem_cons.mp hj with rfl | hjt
    · cases acc with
      | none =>
        rw [bestCandidateAux_cons_none score ex t hjex]
        exact bestCandidateAux_isSome_of_acc score ex t j
      | some b =>
        by_cases hs : score b < score j
        · rw [bestCandidateAux_cons_lt score ex t hjex hs]
          exact bestCandidateAux_isSome_of_acc score ex t j
        · rw [bestCandidateAux_cons_ge score ex t hjex hs]
          exact bestCandidateAux_isSome_of_acc score ex t b
    · by_cases ha : a ∈ ex
      · rw [bestCandidateAux_cons_ex score ex t acc ha]; exact ih acc j hjt hjex
      · cases acc with
        | none =>
          rw [bestCandidateAux_cons_none score ex t ha]
          exact bestCandidateAux_isSome_of_acc score ex t a
        | some b =>
          by_cases hs : score b < score a
          · rw [bestCandidateAux_cons_lt score ex t ha hs]
            exact bestCandidateAux_isSome_of_acc score ex t a
          · rw [bestCandidateAux_cons_ge score ex t ha hs]
            exact bestCandidateAux_isSome_of_acc score ex t b

/-- The scan never returns an excluded index when started from a clean
accumulator. -/
theorem bestCandidateAux_not_ex (score : Nat → ℚ) (ex : List Nat) :
    ∀ (l : List Nat) (acc : Option Nat) (i : Nat),
      (∀ b, acc = some b → b ∉ ex) →
      bestCandidateAux score ex l acc = some i → i ∉ ex := by
  intro l
  induction l with
  | nil => intro acc i hacc h; exact hacc i h
  | cons a t ih =>
    intro acc i hacc h
    by_cases ha : a ∈ ex
    · rw [bestCandidateAux_cons_ex score ex t acc ha] at h
      exact ih acc i hacc h
    · cases acc with
      | none =>
        rw [bestCandidateAux_cons_none score ex t ha] at h
        exact ih (some a) i
          (fun b hb => by rw [← Option.some_inj.mp hb]; exact ha) h
      | some b =>
        by_cases hs : score b < score a
        · rw [bestCandidateAux_cons_lt score ex t ha hs] at h
          exact ih (some a) i
            (fun c hc => by rw [← Option.some_inj.mp hc]; exact ha) h
        · rw [bestCandidateAux_cons_ge score ex t ha hs] at h
          exact ih (some b) i
            (fun c hc => by rw [← Option.some_inj.mp hc]; exact hacc b rfl) h

/-- The scan's maximality: over a strictly increasing index list, the result
beats every eligible scanned index, with ties resolved to the earlier index;
and it is at least as good as the incoming accumulator. -/
theorem bestCandidateAux_best (score : Nat → ℚ) (ex : List Nat) :
    ∀ (l : List Nat), l.Pairwise (· < ·) →
      ∀ (acc : Option Nat) (i : Nat),
      (∀ b, acc = some b → ∀ j ∈ l, b < j) →
      bestCandidateAux score ex l acc = some i →
      (∀ j ∈ l, j ∉ ex → score j < score i ∨ (score j ≤ score i ∧ i ≤ j)) ∧
      (∀ b, acc = some b → score b < score i ∨ (score b ≤ score i ∧ i ≤ b)) := by
  intro l
  induction l with
  | nil =>
    intro _ acc i _ h
    refine ⟨fun j hj => absurd hj (List.not_mem_nil j), fun b hb => ?_⟩
    have : b = i := by rw [hb] at h; exact Option.some_inj.mp h
    subst this
    exact Or.inr ⟨le_refl _, le_refl _⟩
  | cons a t ih =>
    intro hpair acc i hacc h
    have hpa : ∀ j ∈ t, a < j := (List.pairwise_cons.mp hpair).1
    have hpt : t.Pairwise (· < ·) := (List.pairwise_cons.mp hpair).2
    by_cases ha : a ∈ ex
    · rw [bestCandidateAux_cons_ex score ex t acc ha] at h
      obtain ⟨P, Q⟩ := ih hpt acc i
        (fun b hb j hj => hacc b hb j (List.mem_cons_of_mem a hj)) h
      refine ⟨?_, Q⟩
      intro j hj hjex
      rcases List.mem_cons.mp hj with rfl | hjt
      · exact absurd ha hjex
      · exact P j hjt hjex
    · cases acc with
      | none =>
        rw [bestCandidateAux_cons_none score ex t ha] at h
        obtain ⟨P, Q⟩ := ih hpt (some a) i
          (fun b hb j hj => (Option.some_inj.mp hb) ▸ hpa j hj) h
        constructor
        · intro j hj hjex
          rcases List.mem_cons.mp hj with rfl | hjt
          · exact Q j rfl
          · exact P j hjt hjex
        · intro b hb
          exact Option.noConfusion hb
      | some b =>
        by_cases hs : score b < score a
        · rw [bestCandidateAux_cons_lt score ex t ha hs] at h
          obtain ⟨P, Q⟩ := ih hpt (some a) i
            (fun c hc j hj => (Option.some_inj.mp hc) ▸ hpa j hj) h
          have Qa := Q a rfl
          constructor
          · intro j hj hjex
            rcases List.mem_cons.mp hj with rfl | hjt
            · exact Qa
            · exact P j hjt hjex
          · intro c hc
            have hcb : b = c := Option.some_inj.mp hc
            subst hcb
            rcases Qa with h1 | ⟨h1, _⟩
            · exact Or.inl (hs.trans h1)
            · exact Or.inl (lt_of_lt_of_le hs h1)
        · rw [bestCandidateAux_cons_ge score ex t ha hs] at h
          have hab : score a ≤ score b := le_of_not_lt hs
          obtain ⟨P, Q⟩ := ih hpt (some b) i
            (fun c hc j hj =>
              (Option.some_inj.mp hc) ▸ hacc b rfl j (List.mem_cons_of_mem a hj)) h
          have Qb := Q b rfl
          have hba : b < a := hacc b rfl a (List.mem_cons_self a t)
          constructor
          · intro j hj hjex
            rcases List.mem_cons.mp hj with rfl | hjt
            · rcases Qb with h1 | ⟨h1, h2⟩
              · exact Or.inl (lt_of_le_of_lt hab h1)
              · exact Or.inr ⟨le_trans hab h1, le_trans h2 (le_of_lt hba)⟩
            · exact P j hjt hjex
          · intro c hc
            have hcb : b = c := Option.some_inj.mp hc
            subst hcb
            exact Qb

/-- Characterisation of a successful `bestCandidate` scan: the result is an
eligible in-range index beating every eligible index (ties to the earlier). -/
theorem bestCandidate_spec (score : Nat → ℚ) (ex : List Nat) (n i : Nat)
    (h : bestCandidate score ex n = some i) :
    i < n ∧ i ∉ ex ∧
    ∀ j, j < n → j ∉ ex →
      score j < score i ∨ (score j ≤ score i ∧ i ≤ j) := by
  have hmem := bestCandidateAux_mem score ex (List.range n) none i h
  have hin : i < n := by
    rcases hmem with hm | hm
    · exact List.mem_range.mp hm
    · exact Option.noConfusion hm
  have hnex := bestCandidateAux_not_ex score ex (List.range n) none i
    (fun b hb => Option.noConfusion hb) h
  have hbest := (bestCandidateAux_best score ex (List.range n)
    (List.pairwise_lt_range n) none i (fun b hb => Option.noConfusion hb) h).1
  exact ⟨hin, hnex, fun j hj hjex => hbest j (List.mem_range.mpr hj) hjex⟩

/-- An eligible in-range index forces `bestCandidate` to succeed. -/
theorem bestCandidate_isSome (score : Nat → ℚ) (ex : List Nat) (n j : Nat)
    (hj : j < n) (hjex : j ∉ ex) : (bestCandidate score ex n).isSome = true :=
  bestCandidateAux_isSome score ex (List.range n) none j (List.mem_range.mpr hj) hjex

/-- If `bestCandidate` fails, every in-range index was excluded. -/
theorem bestCandidate_none (score : Nat → ℚ) (ex : List Nat) (n : Nat)
    (h : bestCandidate score ex n = none) : ∀ j, j < n → j ∈ ex := by
  intro j hj
  by_contra hjex
  have hs := bestCandidate_isSome score ex n j hj hjex
  rw [h] at hs
  exact Bool.noConfusion hs

/-- The scan's tie-broken maximality, repackaged as the ranking relation. -/
theorem score_disj_simRank (score : Nat → ℚ) {i j : Nat}
    (h : score j < score i ∨ (score j ≤ score i ∧ i ≤ j)) : simRank score i j := by
  rcases h with h | ⟨h1, h2⟩
  · exact Or.inl h
  · rcases lt_or_eq_of_le h1 with h3 | h3
    · exact Or.inl h3
    · exact Or.inr ⟨h3.symm, h2⟩

/-- A duplicate-free list of indices below `n` has at most `n` elements. -/
theorem length_le_of_nodup_lt (l : List Nat) (n : Nat) (hnd : l.Nodup)
    (hlt : ∀ x ∈ l, x < n) : l.length ≤ n := by
  have h1 : l.toFinset.card = l.length := List.toFinset_card_of_nodup hnd
  have h2 : l.toFinset ⊆ Finset.range n := fun x hx =>
    Finset.mem_range.mpr (hlt x (List.mem_toFinset.mp hx))
  have h3 := Finset.card_le_card h2
  rw [h1, Finset.card_range] at h3
  exact h3

/-- A list containing every index below `n` has at least `n` elements. -/
theorem le_length_of_range_subset (l : List Nat) (n : Nat)
    (hall : ∀ j, j < n → j ∈ l) : n ≤ l.length := by
  have h2 : Finset.range n ⊆ l.toFinset := fun x hx =>
    List.mem_toFinset.mpr (hall x (Finset.mem_range.mp hx))
  have h3 := Finset.card_le_card h2
  rw [Finset.card_range] at h3
  exact le_trans h3 l.toFinset_card_le

/-! ## Structure of the MMR selection -/

/-- Unfolding: a stalled step ends the loop. -/
theorem mmrLoop_succ_none (lam : ℚ) (simQ : Nat → ℚ) (simDD : Nat → Nat → ℚ)
    (n fuel : Nat) (idxs : List Nat)
    (h : mmrStep lam simQ simDD n idxs = none) :
    mmrLoop lam simQ simDD n (fuel + 1) idxs = idxs := by
  simp [mmrLoop, h]

/-- Unfolding: a successful step appends its index and continues. -/
theorem mmrLoop_succ_some (lam : ℚ) (simQ : Nat → ℚ) (simDD : Nat → Nat → ℚ)
    (n fuel : Nat) (idxs : List Nat) (i : Nat)
    (h : mmrStep lam simQ simDD n idxs = some i) :
    mmrLoop lam simQ simDD n (fuel + 1) idxs =
      mmrLoop lam simQ simDD n fuel (idxs ++ [i]) := by
  simp [mmrLoop, h]

/-- Loop invariant of the MMR `while` loop: starting from a duplicate-free
in-range selection, the loop extends the selection (append only), keeps it
duplicate-free and in range, and grows it to `min (start + fuel) n`. -/
theorem mmrLoop_invariant (lam : ℚ) (simQ : Nat → ℚ) (simDD : Nat → Nat → ℚ)
    (n : Nat) :
    ∀ (fuel : Nat) (idxs : List Nat), idxs.Nodup → (∀ x ∈ idxs, x < n) →
      (mmrLoop lam simQ simDD n fuel idxs).Nodup ∧
      (∀ x ∈ mmrLoop lam simQ simDD n fuel idxs, x < n) ∧
      (mmrLoop lam simQ simDD n fuel idxs).length = min (idxs.length + fuel) n ∧
      ∃ t, mmrLoop lam simQ simDD n fuel idxs = idxs ++ t := by
  intro fuel
  induction fuel with
  | zero =>
    intro idxs hnd hlt
    refine ⟨hnd, hlt, ?_, ⟨[], (List.append_nil idxs).symm⟩⟩
    have := length_le_of_nodup_lt idxs n hnd hlt
    simp [mmrLoop]
    omega
  | succ fuel ih =>
    intro idxs hnd hlt
    cases hstep : mmrStep lam simQ simDD n idxs with
    | none =>
      rw [mmrLoop_succ_none lam simQ simDD n fuel idxs hstep]
      have hall := bestCandidate_none _ idxs n hstep
      have hge := le_length_of_range_subset idxs n hall
      have hle := length_le_of_nodup_lt idxs n hnd hlt
      refine ⟨hnd, hlt, ?_, ⟨[], (List.append_nil idxs).symm⟩⟩
      omega
    | some i =>
      rw [mmrLoop_succ_some lam simQ simDD n fuel idxs i hstep]
      obtain ⟨hin, hiex, -⟩ := bestCandidate_spec _ idxs n i hstep
      have hnd' : (idxs ++ [i]).Nodup := by
        rw [List.nodup_append]
        refine ⟨hnd, List.nodup_singleton i, ?_⟩
        intro a ha hb
        rw [List.mem_singleton] at hb
        subst hb
        exact hiex ha
      have hlt' : ∀ x ∈ idxs ++ [i], x < n := by
        intro x hx
        rcases List.mem_append.mp hx with hx | hx
        · exact hlt x hx
        · rw [List.mem_singleton] at hx; subst hx; exact hin
      obtain ⟨h1, h2, h3, t, h4⟩ := ih (idxs ++ [i]) hnd' hlt'
      refine ⟨h1, h2, ?_, ⟨[i] ++ t, by rw [h4, List.append_assoc]⟩⟩
      rw [h3]
      simp only [List.length_append, List.length_singleton]
      omega

/-- `maximal_marginal_relevance` returns `min k n` pairwise-distinct indices
into the embedding list (where `n` is the number of candidates). -/
theorem maximal_marginal_relevance_structure (sim : Emb → Emb → ℚ) (qe : Emb)
    (embs : List Emb) (lam : ℚ) (k : Nat) :
    (maximal_marginal_relevance sim qe embs lam k).length = min k embs.length ∧
    (maximal_marginal_relevance sim qe embs lam k).Nodup ∧
    ∀ i ∈ maximal_marginal_relevance sim qe embs lam k, i < embs.length := by
  simp only [maximal_marginal_relevance]
  by_cases hmin : min k embs.length = 0
  · rw [if_pos hmin, hmin]
    exact ⟨rfl, List.nodup_nil, fun i hi => absurd hi (List.not_mem_nil i)⟩
  · rw [if_neg hmin]
    have hn : 0 < embs.length := by
      rcases Nat.eq_zero_or_pos embs.length with h | h
      · rw [h] at hmin; simp at hmin
      · exact h
    cases hbc : bestCandidate
        (fun i => sim qe (embs.getD i [])) [] embs.length with
    | none =>
      have := bestCandidate_isSome (fun i => sim qe (embs.getD i []))
        [] embs.length 0 hn (List.not_mem_nil 0)
      rw [hbc] at this
      exact Bool.noConfusion this
    | some m =>
      obtain ⟨hmn, -, -⟩ := bestCandidate_spec _ [] embs.length m hbc
      obtain ⟨h1, h2, h3, -⟩ := mmrLoop_invariant lam
        (fun i => sim qe (embs.getD i []))
        (fun i j => sim (embs.getD i []) (embs.getD j []))
        embs.length (min k embs.length - 1) [m]
        (List.nodup_singleton m)
        (fun x hx => by rw [List.mem_singleton] at hx; subst hx; exact hmn)
      refine ⟨?_, h1, h2⟩
      rw [h3]
      simp only [List.length_singleton]
      omega

/-- C2 — confirmed.  For `k ≤ fetch_k ≤ index size` (the index size being the
length of the search ranking), `get_relevant_documents` returns exactly `k`
documents, each drawn from the `fetch_k` top-similarity candidates returned by
the vector search, with no duplicates (given that the stored documents are
pairwise distinct — documents at distinct ranks are selected at distinct
candidate indices). -/
theorem c2_retrieve_exact_k (env : EmbEnv) (q : String) (vs : FAISS)
    (k fk : Nat) (lam : ℚ) (hk : k ≤ fk)
    (hfk : fk ≤ (vs.ranked (env.embed_query q)).length) :
    (get_relevant_documents env q vs k fk lam).length = k ∧
    (∀ d ∈ get_relevant_documents env q vs k fk lam,
      d ∈ similarity_search_with_score_by_vector vs (env.embed_query q) fk) ∧
    ((vs.ranked (env.embed_query q)).Nodup →
      (get_relevant_documents env q vs k fk lam).Nodup) := by
  have hlen : (similarity_search_with_score_by_vector vs
      (env.embed_query q) fk).length = fk := by
    simp only [similarity_search_with_score_by_vector, List.length_take]
    omega
  simp only [get_relevant_documents]
  by_cases hbr : k < (similarity_search_with_score_by_vector vs
      (env.embed_query q) fk).length
  · rw [if_pos hbr]
    have hbr' : k < fk := by rw [hlen] at hbr; exact hbr
    obtain ⟨hL, hND, hInR⟩ := maximal_marginal_relevance_structure env.sim
      (env.embed_query q)
      ((similarity_search_with_score_by_vector vs (env.embed_query q) fk).map
        (fun d => env.embed_query d.page_content)) lam k
    have hembLen : ((similarity_search_with_score_by_vector vs
        (env.embed_query q) fk).map
        (fun d => env.embed_query d.page_content)).length = fk := by
      rw [List.length_map, hlen]
    refine ⟨?_, ?_, ?_⟩
    · rw [List.length_map, hL, hembLen]
      omega
    · intro d hd
      rw [List.mem_map] at hd
      obtain ⟨i, hi, rfl⟩ := hd
      have hilt : i < (similarity_search_with_score_by_vector vs
          (env.embed_query q) fk).length := by
        have := hInR i hi
        rw [hembLen] at this
        rw [hlen]
        exact this
      rw [List.getD_eq_getElem _ _ hilt]
      exact List.getElem_mem hilt
    · intro hnodup
      have hdocsnd : (similarity_search_with_score_by_vector vs
          (env.embed_query q) fk).Nodup :=
        (List.take_sublist fk _).nodup hnodup
      apply List.Nodup.map_on ?_ hND
      intro x hx y hy hxy
      have hxlt : x < (similarity_search_with_score_by_vector vs
          (env.embed_query q) fk).length := by
        have := hInR x hx; rw [hembLen] at this; rw [hlen]; exact this
      have hylt : y < (similarity_search_with_score_by_vector vs
          (env.embed_query q) fk).length := by
        have := hInR y hy; rw [hembLen] at this; rw [hlen]; exact this
      rw [List.getD_eq_getElem _ _ hxlt, List.getD_eq_getElem _ _ hylt] at hxy
      exact (List.Nodup.getElem_inj_iff hdocsnd).mp hxy
  · rw [if_neg hbr]
    have hkfk : k = fk := by rw [hlen] at hbr; omega
    refine ⟨by rw [hlen, hkfk], fun d hd => hd, fun hnd => ?_⟩
    exact (List.take_sublist fk _).nodup hnd

/-- C2 — witness: a three-document store with `k = 2 ≤ fetch_k = 3 = index
size`. -/
theorem c2_witness :
    (get_relevant_documents envEmbW "q" faiss3W 2 3 (1/2)).length = 2 ∧
    (∀ d ∈ get_relevant_documents envEmbW "q" faiss3W 2 3 (1/2),
      d ∈ similarity_search_with_score_by_vector faiss3W
        (envEmbW.embed_query "q") 3) ∧
    ((faiss3W.ranked (envEmbW.embed_query "q")).Nodup →
      (get_relevant_documents envEmbW "q" faiss3W 2 3 (1/2)).Nodup) :=
  c2_retrieve_exact_k envEmbW "q" faiss3W 2 3 (1/2) (by decide) (by decide)

/-! ## The λ = 1 degeneration of MMR (claim C3) -/

/-- `simRank` is reflexive. -/
theorem simRank_refl (simQ : Nat → ℚ) (i : Nat) : simRank simQ i i :=
  Or.inr ⟨rfl, le_refl i⟩

/-- `simRank` is total. -/
theorem simRank_total (simQ : Nat → ℚ) :
    ∀ i j, simRank simQ i j ∨ simRank simQ j i := by
  intro i j
  rcases lt_trichotomy (simQ i) (simQ j) with h | h | h
  · exact Or.inr (Or.inl h)
  · rcases le_total i j with hij | hij
    · exact Or.inl (Or.inr ⟨h, hij⟩)
    · exact Or.inr (Or.inr ⟨h.symm, hij⟩)
  · exact Or.inl (Or.inl h)

/-- `simRank` is transitive. -/
theorem simRank_trans (simQ : Nat → ℚ) :
    ∀ i j l, simRank simQ i j → simRank simQ j l → simRank simQ i l := by
  intro i j l hij hjl
  rcases hij with h1 | ⟨h1, h2⟩ <;> rcases hjl with h3 | ⟨h3, h4⟩
  · exact Or.inl (h3.trans h1)
  · exact Or.inl (h3 ▸ h1)
  · exact Or.inl (by rw [h1]; exact h3)
  · exact Or.inr ⟨h1.trans h3, h2.trans h4⟩

/-- `simRank` is antisymmetric. -/
theorem simRank_antisymm (simQ : Nat → ℚ) :
    ∀ i j, simRank simQ i j → simRank simQ j i → i = j := by
  intro i j hij hji
  rcases hij with h1 | ⟨h1, h2⟩ <;> rcases hji with h3 | ⟨h3, h4⟩
  · exact absurd h1 (lt_asymm h3)
  · exact absurd (h3 ▸ h1) (lt_irrefl _)
  · exact absurd (h1 ▸ h3) (lt_irrefl _)
  · exact le_antisymm h2 h4

/-- With `lambda_mult = 1` the MMR equation score collapses to the plain
similarity to the query: the redundancy term is multiplied by `1 - 1 = 0`. -/
theorem mmrStep_one (simQ : Nat → ℚ) (simDD : Nat → Nat → ℚ) (n : Nat)
    (idxs : List Nat) :
    mmrStep 1 simQ simDD n idxs = bestCandidate simQ idxs n := by
  unfold mmrStep
  congr 1
  funext i
  rw [one_mul, sub_self, zero_mul, sub_zero]

/-- The greedy walk: with `lambda_mult = 1`, if the already selected indices
are a leading block of a similarity-sorted enumeration `S` of all `n`
candidates, the loop appends exactly the next `fuel` entries of `S`. -/
theorem mmrLoop_one_walk (simQ : Nat → ℚ) (simDD : Nat → Nat → ℚ) (n : Nat)
    (S : List Nat) (hnd : S.Nodup) (hmem : ∀ x, x ∈ S ↔ x < n)
    (hsorted : S.Pairwise (simRank simQ)) :
    ∀ (fuel : Nat) (p rest : List Nat), S = p ++ rest →
      mmrLoop 1 simQ simDD n fuel p = p ++ rest.take fuel := by
  intro fuel
  induction fuel with
  | zero => intro p rest _; simp [mmrLoop]
  | succ fuel ih =>
    intro p rest hpr
    cases rest with
    | nil =>
      have hnone : mmrStep 1 simQ simDD n p = none := by
        rw [mmrStep_one]
        cases hbc : bestCandidate simQ p n with
        | none => rfl
        | some i =>
          exfalso
          obtain ⟨hin, hiex, -⟩ := bestCandidate_spec simQ p n i hbc
          have hiS : i ∈ S := (hmem i).mpr hin
          rw [hpr, List.append_nil] at hiS
          exact hiex hiS
      rw [mmrLoop_succ_none 1 simQ simDD n fuel p hnone, List.take_nil,
        List.append_nil]
    | cons b rest' =>
      have hbn : b < n := (hmem b).mp
        (by rw [hpr]; exact List.mem_append_right p (List.mem_cons_self b rest'))
      have hbp : b ∉ p := by
        have hndS := hnd
        rw [hpr, List.nodup_append] at hndS
        intro hmem'
        exact hndS.2.2 hmem' (List.mem_cons_self b rest')
      have hsome : (bestCandidate simQ p n).isSome = true :=
        bestCandidate_isSome simQ p n b hbn hbp
      obtain ⟨i, hi⟩ := Option.isSome_iff_exists.mp hsome
      obtain ⟨hin, hiex, hbest⟩ := bestCandidate_spec simQ p n i hi
      have hib : i = b := by
        have hrib : simRank simQ i b :=
          score_disj_simRank simQ (hbest b hbn hbp)
        have hrbi : simRank simQ b i := by
          have hiS : i ∈ S := (hmem i).mpr hin
          rw [hpr] at hiS
          rcases List.mem_append.mp hiS with hip | hic
          · exact absurd hip hiex
          · rcases List.mem_cons.mp hic with rfl | hir
            · exact simRank_refl simQ i
            · have hpw := hsorted
              rw [hpr] at hpw
              have hpw2 := (List.pairwise_append.mp hpw).2.1
              exact (List.pairwise_cons.mp hpw2).1 i hir
        exact simRank_antisymm simQ i b hrib hrbi
      subst hib
      have hstep : mmrStep 1 simQ simDD n p = some i := by
        rw [mmrStep_one]; exact hi
      rw [mmrLoop_succ_some 1 simQ simDD n fuel p i hstep]
      have hS' : S = (p ++ [i]) ++ rest' := by
        rw [hpr, List.append_assoc, List.singleton_append]
      rw [ih (p ++ [i]) rest' hS', List.take_succ_cons, List.append_assoc,
        List.singleton_append]

/-- Core of the λ = 1 degeneration: the seeded greedy selection equals the
first `min k n` entries of the stable similarity sort of all `n` candidates. -/
theorem mmr_core_one (simQ : Nat → ℚ) (simDD : Nat → Nat → ℚ) (n k : Nat) :
    (if min k n = 0 then []
     else
       match bestCandidate simQ [] n with
       | none => []
       | some m => mmrLoop 1 simQ simDD n (min k n - 1) [m]) =
      (List.insertionSort (simRank simQ) (List.range n)).take (min k n) := by
  haveI hTot : IsTotal Nat (simRank simQ) := ⟨simRank_total simQ⟩
  haveI hTrans : IsTrans Nat (simRank simQ) := ⟨fun a b c => simRank_trans simQ a b c⟩
  have hperm : (List.insertionSort (simRank simQ) (List.range n)).Perm
      (List.range n) := List.perm_insertionSort _ _
  have hnd : (List.insertionSort (simRank simQ) (List.range n)).Nodup :=
    hperm.nodup_iff.mpr (List.nodup_range n)
  have hmem : ∀ x, x ∈ List.insertionSort (simRank simQ) (List.range n) ↔ x < n :=
    fun x => by rw [hperm.mem_iff, List.mem_range]
  have hsorted : (List.insertionSort (simRank simQ) (List.range n)).Pairwise
      (simRank simQ) := List.sorted_insertionSort _ _
  have hlenS : (List.insertionSort (simRank simQ) (List.range n)).length = n := by
    rw [hperm.length_eq, List.length_range]
  by_cases hmin : min k n = 0
  · rw [if_pos hmin, hmin, List.take_zero]
  · rw [if_neg hmin]
    have hn0 : 0 < n := by
      rcases Nat.eq_zero_or_pos n with h | h
      · rw [h, Nat.min_zero] at hmin; exact absurd rfl hmin
      · exact h
    have hsome := bestCandidate_isSome simQ [] n 0 hn0 (List.not_mem_nil 0)
    obtain ⟨m, hm⟩ := Option.isSome_iff_exists.mp hsome
    rw [hm]
    show mmrLoop 1 simQ simDD n (min k n - 1) [m] =
      (List.insertionSort (simRank simQ) (List.range n)).take (min k n)
    obtain ⟨s0, S', hScons⟩ :
        ∃ s0 S', List.insertionSort (simRank simQ) (List.range n) = s0 :: S' := by
      cases hc : List.insertionSort (simRank simQ) (List.range n) with
      | nil => rw [hc] at hlenS; simp at hlenS; omega
      | cons a t => exact ⟨a, t, rfl⟩
    have hm0 : m = s0 := by
      obtain ⟨hmn, -, hbest⟩ := bestCandidate_spec simQ [] n m hm
      have hs0n : s0 < n := (hmem s0).mp
        (by rw [hScons]; exact List.mem_cons_self s0 S')
      have hr1 : simRank simQ m s0 :=
        score_disj_simRank simQ (hbest s0 hs0n (List.not_mem_nil s0))
      have hr2 : simRank simQ s0 m := by
        have hmS : m ∈ List.insertionSort (simRank simQ) (List.range n) :=
          (hmem m).mpr hmn
        rw [hScons] at hmS
        rcases List.mem_cons.mp hmS with rfl | hmS'
        · exact simRank_refl simQ m
        · have hpw : (s0 :: S').Pairwise (simRank simQ) := hScons ▸ hsorted
          exact (List.pairwise_cons.mp hpw).1 m hmS'
      exact simRank_antisymm simQ m s0 hr1 hr2
    subst hm0
    have hwalk := mmrLoop_one_walk simQ simDD n
      (List.insertionSort (simRank simQ) (List.range n)) hnd hmem hsorted
      (min k n - 1) [m] S' (by rw [hScons, List.singleton_append])
    rw [hwalk, hScons, List.singleton_append]
    have hsucc : min k n = (min k n - 1) + 1 := by omega
    conv_rhs => rw [hsucc]
    rw [List.take_succ_cons]

/-- `maximal_marginal_relevance` with `lambda_mult = 1` selects the first
`min k n` entries of the stable descending similarity sort of the candidates:
plain top-`k` by similarity, ties kept in candidate order. -/
theorem maximal_marginal_relevance_one (sim : Emb → Emb → ℚ) (qe : Emb)
    (embs : List Emb) (k : Nat) :
    maximal_marginal_relevance sim qe embs 1 k =
      (List.insertionSort (simRank (fun i => sim qe (embs.getD i [])))
        (List.range embs.length)).take (min k embs.length) := by
  simp only [maximal_marginal_relevance]
  exact mmr_core_one (fun i => sim qe (embs.getD i []))
    (fun i j => sim (embs.getD i []) (embs.getD j [])) embs.length k

/-- Reading back a list through `getD` over its index range is the identity. -/
theorem map_getD_range (l : List Document) (d : Document) :
    (List.range l.length).map (fun i => l.getD i d) = l := by
  apply List.ext_getElem
  · simp
  · intro i h1 h2
    simp only [List.getElem_map, List.getElem_range]
    rw [List.getD_eq_getElem]

/-- C3 — confirmed.  With `lambda_mult = 1` (`diversity = 1.0`), retrieval
returns, element by element and in order, the plain top-`k` similarity ranking
of the same `fetch_k` candidates (`specPlainTopK`).  The hypothesis is the
single-similarity coherence contract the spec places on the external vector
index: the search hands back its candidates already (weakly) ordered by the
similarity the reranking stage measures. -/
theorem c3_diversity_one (env : EmbEnv) (q : String) (vs : FAISS) (k fk : Nat)
    (hsorted : (List.range (similarity_search_with_score_by_vector vs
        (env.embed_query q) fk).length).Pairwise
      (fun i j => candidateSim env q vs fk j ≤ candidateSim env q vs fk i)) :
    get_relevant_documents env q vs k fk 1 = specPlainTopK env q vs k fk := by
  have hcs : (fun i => env.sim (env.embed_query q)
      (((similarity_search_with_score_by_vector vs (env.embed_query q) fk).map
        (fun d => env.embed_query d.page_content)).getD i [])) =
      candidateSim env q vs fk := rfl
  simp only [get_relevant_documents, specPlainTopK]
  by_cases hbr : k < (similarity_search_with_score_by_vector vs
      (env.embed_query q) fk).length
  · rw [if_pos hbr, maximal_marginal_relevance_one, List.length_map, hcs,
      Nat.min_eq_left (Nat.le_of_lt hbr)]
  · rw [if_neg hbr]
    push_neg at hbr
    haveI : IsTotal Nat (simRank (candidateSim env q vs fk)) :=
      ⟨simRank_total _⟩
    haveI : IsTrans Nat (simRank (candidateSim env q vs fk)) :=
      ⟨fun a b c => simRank_trans _ a b c⟩
    haveI : IsAntisymm Nat (simRank (candidateSim env q vs fk)) :=
      ⟨fun a b => simRank_antisymm _ a b⟩
    have hpairlt := List.pairwise_lt_range
      (similarity_search_with_score_by_vector vs (env.embed_query q) fk).length
    have hrank : (List.range (similarity_search_with_score_by_vector vs
        (env.embed_query q) fk).length).Pairwise
        (simRank (candidateSim env q vs fk)) := by
      refine (hpairlt.and hsorted).imp ?_
      intro i j hij
      obtain ⟨hlt, hle⟩ := hij
      rcases lt_or_eq_of_le hle with h | h
      · exact Or.inl h
      · exact Or.inr ⟨h.symm, le_of_lt hlt⟩
    have hSr : List.insertionSort (simRank (candidateSim env q vs fk))
        (List.range (similarity_search_with_score_by_vector vs
          (env.embed_query q) fk).length) =
        List.range (similarity_search_with_score_by_vector vs
          (env.embed_query q) fk).length :=
      List.eq_of_perm_of_sorted (List.perm_insertionSort _ _)
        (List.sorted_insertionSort _ _) hrank
    rw [hSr, List.take_of_length_le (by rw [List.length_range]; exact hbr),
      map_getD_range]

/-- C3 — witness: a two-candidate store with a constant similarity kernel (so
the coherence hypothesis holds by computation) and `k = 1 < fetch_k = 2`,
exercising the MMR branch. -/
theorem c3_witness :
    get_relevant_documents envEmbW "q" faissDupW 1 2 1 =
      specPlainTopK envEmbW "q" faissDupW 1 2 :=
  c3_diversity_one envEmbW "q" faissDupW 1 2 (by decide)
